import Mathlib

/-!
Verification development for the universal PDF table-extraction core of the
Finance-v2 repository (`src/ai-service/main.py`).  The Python code is embedded
shallowly: strings are Lean `String`s manipulated through their character
lists, Python floats are modelled as rationals, Python dicts as
insertion-ordered association lists with overwriting insert, and the regular
expressions of the source are compiled by hand into decidable character-list
scanners (each such definition documents the regex it implements).
-/

namespace FinanceV2

/-! ## Character and string primitives (Python semantics) -/

/-- Python whitespace for `str.strip`, `str.split` and the regex class
latin `\s` (restricted to the ASCII characters that can occur here):
space, tab, newline, carriage return, vertical tab, form feed. -/
def pyIsSpace (c : Char) : Bool :=
  c = ' ' || c = '\t' || c = '\n' || c = '\r' || c = Char.ofNat 11 || c = Char.ofNat 12

/-- Character class `[\d,]` used by the amount regex. -/
def isDigitOrComma (c : Char) : Bool := c.isDigit || c = ','

/-- Separator class `[slash-dash]` of the date regex. -/
def isSep (c : Char) : Bool := c = '/' || c = '-'

def trimLeftL (l : List Char) : List Char := l.dropWhile pyIsSpace

def trimRightL (l : List Char) : List Char := (l.reverse.dropWhile pyIsSpace).reverse

/-- Python `str.strip()` on the character list. -/
def stripL (l : List Char) : List Char := trimRightL (trimLeftL l)

/-- Python `str.strip()`. -/
def strip (s : String) : String := ⟨stripL s.data⟩

/-- Python `str.lower()` (ASCII inputs). -/
def toLowerStr (s : String) : String := ⟨s.data.map Char.toLower⟩

/-- Python substring containment `needle in hay`. -/
def isSubstring (needle hay : String) : Bool :=
  hay.data.tails.any (fun t => needle.data.isPrefixOf t)

/-- Python `str.startswith`. -/
def pyStartsWith (p s : String) : Bool := p.data.isPrefixOf s.data

def splitOnCharCore (sep : Char) : List Char → List Char → List (List Char)
  | [], cur => [cur.reverse]
  | c :: rest, cur =>
    if c = sep then cur.reverse :: splitOnCharCore sep rest []
    else splitOnCharCore sep rest (c :: cur)

/-- Python `s.split(sep)` for a one-character separator (keeps empty pieces). -/
def splitOnChar (sep : Char) (s : String) : List String :=
  (splitOnCharCore sep s.data []).map String.mk

def splitWsCore : List Char → List Char → List (List Char)
  | [], cur => if cur = [] then [] else [cur.reverse]
  | c :: rest, cur =>
    if pyIsSpace c then
      if cur = [] then splitWsCore rest []
      else cur.reverse :: splitWsCore rest []
    else splitWsCore rest (c :: cur)

/-- Python `s.split()`: split on whitespace runs, dropping empty pieces. -/
def pySplit (s : String) : List String := (splitWsCore s.data []).map String.mk

/-- Scanner for `re.split(r'\s{2,}', s)`.  The flag records whether a
separator run (two or more whitespace characters) is currently being
consumed. -/
def splitMultiCore : Bool → List Char → List Char → List (List Char)
  | _, [], cur => [cur.reverse]
  | true, c :: rest, cur =>
    if pyIsSpace c then splitMultiCore true rest cur
    else splitMultiCore false rest (c :: cur)
  | false, c :: rest, cur =>
    if pyIsSpace c then
      match rest with
      | c2 :: rest2 =>
        if pyIsSpace c2 then cur.reverse :: splitMultiCore true rest2 []
        else splitMultiCore false (c2 :: rest2) (c :: cur)
      | [] => [(c :: cur).reverse]
    else splitMultiCore false rest (c :: cur)

/-- Python `re.split(r'\s{2,}', s)`: split on maximal runs of at least two
whitespace characters; single whitespace characters stay inside a piece. -/
def splitMultiSpace (s : String) : List String :=
  (splitMultiCore false s.data []).map String.mk

/-- Python `' '.join(l)`. -/
def joinWith (sep : String) : List String → String
  | [] => ""
  | x :: xs => xs.foldl (fun a b => a ++ sep ++ b) x

def containsChar (c : Char) (s : String) : Bool := s.data.contains c

/-! ## Regex scanners -/

def digitCount (l : List Char) : ℕ := (l.takeWhile Char.isDigit).length

def afterDigits (l : List Char) : List Char := l.dropWhile Char.isDigit

/-- Match of the date regex `\d{1,2}[slash-dash]\d{1,2}[slash-dash]\d{2,4}` anchored at the
head of the list: the first digit run must have length 1 or 2 (a longer run
leaves a digit, not a separator, after the quantifier), then a separator,
again 1-2 digits, a separator, and at least two further digits. -/
def dateAt (l : List Char) : Bool :=
  match afterDigits l with
  | c :: r1 =>
    decide (1 ≤ digitCount l ∧ digitCount l ≤ 2) && isSep c &&
    (match afterDigits r1 with
     | c2 :: r2 =>
       decide (1 ≤ digitCount r1 ∧ digitCount r1 ≤ 2) && isSep c2 &&
       decide (2 ≤ digitCount r2)
     | [] => false)
  | [] => false

def hasDateL (l : List Char) : Bool := l.tails.any dateAt

/-- Python `re.search(r'\d{1,2}[slash-dash]\d{1,2}[slash-dash]\d{2,4}', s)` succeeds. -/
def hasDate (s : String) : Bool := hasDateL s.data

/-- Python `re.search(r'[\d,]+\.?\d*', s)` succeeds.  The mandatory part of
that regex is `[\d,]+`, one digit-or-comma; a single such character already
matches (with the optional parts empty), so the search succeeds exactly when
the string contains a digit or a comma. -/
def hasAmount (s : String) : Bool := s.data.any isDigitOrComma

/-- Python `re.match(r'^(\d{1,2}[slash-dash]\d{1,2}[slash-dash]\d{2,4})', s)` succeeds
(the date regex anchored at the start of the string). -/
def dateAtStart (s : String) : Bool := dateAt s.data

/-- Python `re.match(r'^[\d,]+\.?\d*$', col.replace(',', ''))` succeeds: after
deleting the commas the column must be one or more digits, optionally
followed by a dot and further digits, up to the end of the string. -/
def isAmountToken (s : String) : Bool :=
  let l := s.data.filter (fun c => c ≠ ',')
  decide (1 ≤ digitCount l) &&
    (match afterDigits l with
     | [] => true
     | '.' :: r => r.all Char.isDigit
     | _ :: _ => false)

/-! ## Data model -/

/-- `FieldType` enum of `main.py`. -/
inductive FieldType where
  | date | description | reference | amount | debit | credit | balance
  | account | invoice_number | customer | vendor | tax | unknown
deriving DecidableEq

/-- `TableRegion` dataclass of `main.py` (confidence as a rational). -/
structure TableRegion where
  start_line : ℕ
  end_line : ℕ
  lines : List String
  confidence : ℚ
  table_type : String
deriving DecidableEq

/-- `FieldMapping` dataclass of `main.py`. -/
structure FieldMapping where
  original_name : String
  field_type : FieldType
  standard_name : String
  confidence : ℚ
  sample_values : List String
deriving DecidableEq

/-- Values stored in a record's `data` dict (strings, `None`, numbers). -/
inductive PyVal where
  | vstr : String → PyVal
  | vnone : PyVal
  | vnum : ℚ → PyVal
deriving DecidableEq, Repr

/-- Python dict with string keys: insertion-ordered association list whose
insert overwrites an existing key in place. -/
abbrev Dict := List (String × PyVal)

def dictInsert (d : Dict) (k : String) (v : PyVal) : Dict :=
  if d.any (fun p => p.1 = k) then
    d.map (fun p => if p.1 = k then (k, v) else p)
  else d ++ [(k, v)]

def dictKeys (d : Dict) : List String := d.map Prod.fst

def dictGet (d : Dict) (k : String) : Option PyVal :=
  (d.find? (fun p => p.1 = k)).map Prod.snd

/-- `ExtractedRecord` model of `main.py`. -/
structure ExtractedRecord where
  row_index : ℕ
  data : Dict
  confidence : ℚ
deriving DecidableEq

/-- `ExtractionResult` model of `main.py` (`schema_detected` is a
string-to-string dict, kept as an association list). -/
structure ExtractionResult where
  records : List ExtractedRecord
  total_records : ℕ
  extraction_confidence : ℚ
  schema_detected : List (String × String)
  processing_notes : List String
deriving DecidableEq

/-! ## TableStructureDetector -/

/-- `TableStructureDetector._is_table_line`. -/
def is_table_line (line : String) : Bool :=
  let has_date := hasDate line
  let has_amount := hasAmount line
  let has_multiple_fields := decide (3 ≤ (pySplit line).length)
  let has_tabs := containsChar '\t' line
  (has_date && has_amount) || has_tabs || (has_multiple_fields && has_amount)

def headerKeywords : List String :=
  ["date", "description", "amount", "debit", "credit", "balance",
   "reference", "invoice", "customer", "vendor", "tax"]

/-- `TableStructureDetector._is_header_line`. -/
def is_header_line (line : String) : Bool :=
  decide (2 ≤ headerKeywords.countP (fun k => isSubstring k (toLowerStr line)))

/-- `TableStructureDetector._check_column_consistency`: the fraction of lines
sharing the most common whitespace-token count.  The source takes
`max(set(field_counts), key=field_counts.count)` and then counts it; the
resulting fraction equals the maximal multiplicity divided by the number of
lines, independently of Python's set-iteration order. -/
def check_column_consistency (lines : List String) : ℚ :=
  if lines.length < 2 then 0
  else
    let counts := lines.map (fun l => (pySplit l).length)
    let best := (counts.map (fun c => counts.count c)).foldr max 0
    (best : ℚ) / (counts.length : ℚ)

/-- `TableStructureDetector._calculate_table_confidence`. -/
def calculate_table_confidence (lines : List String) : ℚ :=
  if lines = [] then 0
  else
    let date_lines := lines.countP (fun l => hasDate l)
    let amount_lines := lines.countP (fun l => hasAmount l)
    let consistent := check_column_consistency lines
    let conf := (date_lines : ℚ) / (lines.length : ℚ) * 0.4 +
      (amount_lines : ℚ) / (lines.length : ℚ) * 0.4 + consistent * 0.2
    min conf 1

/-- `TableStructureDetector._determine_table_type`
(`_check_fixed_width_structure` always returns `False` in the source). -/
def determine_table_type (lines : List String) : String :=
  if lines = [] then "unknown"
  else if ((lines.countP (fun l => containsChar '\t' l)) : ℚ) >
      (lines.length : ℚ) * 0.5 then "tab_separated"
  else "space_separated"

def mkRegion (s e : ℕ) (acc : List String) : TableRegion :=
  { start_line := s, end_line := e, lines := acc,
    confidence := calculate_table_confidence acc,
    table_type := determine_table_type acc }

/-- State-machine body of `TableStructureDetector.detect_table_boundaries`:
`i` is the index of the first line of `rest` in the full line list, `st` the
start index of the currently open region (if any), `acc` its accumulated
stripped lines. -/
def detectAux : List String → ℕ → Option ℕ → List String → List TableRegion
  | [], i, some s, acc =>
    if 3 ≤ acc.length then [mkRegion s (i - 1) acc] else []
  | [], _, none, _ => []
  | l :: rest, i, st, acc =>
    let line := strip l
    if line = "" then
      (match st with
       | some s => if 3 ≤ acc.length then [mkRegion s (i - 1) acc] else []
       | none => []) ++ detectAux rest (i + 1) none []
    else if is_table_line line then
      match st with
      | none => detectAux rest (i + 1) (some i) [line]
      | some s => detectAux rest (i + 1) (some s) (acc ++ [line])
    else
      match st with
      | none =>
        if is_header_line line then detectAux rest (i + 1) (some i) [line]
        else detectAux rest (i + 1) none []
      | some s =>
        (if 3 ≤ acc.length then [mkRegion s (i - 1) acc] else []) ++
          detectAux rest (i + 1) none []

/-- The line list a document text is processed as (`text.split('\n')`). -/
def linesOf (text : String) : List String := splitOnChar '\n' text

/-- `TableStructureDetector.detect_table_boundaries`. -/
def detect_table_boundaries (text : String) : List TableRegion :=
  detectAux (linesOf text) 0 none []

/-! ## PDFIntelligenceEngine -/

def bankIndicators : List String :=
  ["bank", "statement", "account", "balance", "transaction", "debit", "credit"]

def invoiceIndicators : List String :=
  ["invoice", "bill", "amount due", "payment terms", "invoice number"]

def salesIndicators : List String :=
  ["sales", "customer", "invoice", "gst", "tax", "total amount"]

def purchaseIndicators : List String :=
  ["purchase", "vendor", "supplier", "bill", "gst", "tax"]

def keywordScore (ks : List String) (textLower : String) : ℕ :=
  ks.countP (fun k => isSubstring k textLower)

/-- Score list of `classify_document_type`, in the insertion order of the
`scores` dict of the source. -/
def documentScores (text : String) : List (String × ℕ) :=
  let tl := toLowerStr text
  [("bank_statement", keywordScore bankIndicators tl),
   ("invoice", keywordScore invoiceIndicators tl),
   ("sales_register", keywordScore salesIndicators tl),
   ("purchase_register", keywordScore purchaseIndicators tl)]

/-- Python `max(iterable, key=...)` over the dict keys: scan left to right,
replacing the current best only on a strictly greater key. -/
def pyMaxScore : List (String × ℕ) → String × ℕ
  | [] => ("", 0)
  | x :: xs => xs.foldl (fun b y => if b.2 < y.2 then y else b) x

/-- `PDFIntelligenceEngine.classify_document_type`. -/
def classify_document_type (text : String) : String × ℚ :=
  let best := pyMaxScore (documentScores text)
  (best.1, min ((best.2 : ℚ) / 10) 1)

/-- `PDFIntelligenceEngine.detect_field_type`. -/
def detect_field_type (header : String) (sample_values : List String) : FieldType :=
  let h := toLowerStr (strip header)
  let has := fun (ks : List String) => ks.any (fun k => isSubstring k h)
  if has ["date", "dt", "time"] then .date
  else if has ["amount", "amt", "value", "total"] then .amount
  else if has ["debit", "dr", "withdrawal", "expense"] then .debit
  else if has ["credit", "cr", "deposit", "income"] then .credit
  else if has ["balance", "bal", "closing"] then .balance
  else if has ["reference", "ref", "cheque", "chq", "txn"] then .reference
  else if has ["description", "desc", "particulars", "narration"] then .description
  else if has ["customer", "client", "party"] then .customer
  else if has ["vendor", "supplier"] then .vendor
  else if has ["invoice", "bill", "voucher"] then .invoice_number
  else if sample_values ≠ [] then
    let taken := sample_values.take 5
    let date_count := taken.countP (fun v => hasDate v)
    let amount_count := taken.countP (fun v => hasAmount v)
    if (date_count : ℚ) > (sample_values.length : ℚ) * 0.6 then .date
    else if (amount_count : ℚ) > (sample_values.length : ℚ) * 0.6 then .amount
    else .unknown
  else .unknown

/-! ## SemanticFieldMapper -/

/-- `SemanticFieldMapper._find_header_line`: best keyword score over the
first 5 lines (strictly-greater replacement, so first argmax); fall back to
the first line when the best score is below 2.  The source indexes
`lines[0]`, reached only with a nonempty list; `headD` supplies the
impossible-default. -/
def find_header_line (lines : List String) : String :=
  let scored := (lines.take 5).foldl
    (fun (b : Option String × ℕ) l =>
      let score := headerKeywords.countP (fun k => isSubstring k (toLowerStr l))
      if b.2 < score then (some l, score) else b)
    (none, 0)
  if 2 ≤ scored.2 then scored.1.getD (lines.headD "") else lines.headD ""

/-- `SemanticFieldMapper._extract_headers`. -/
def extract_headers (header_line : String) : List String :=
  let headers :=
    if containsChar '\t' header_line then splitOnChar '\t' header_line
    else if containsChar '|' header_line then splitOnChar '|' header_line
    else
      let hs := splitMultiSpace header_line
      if hs.length = 1 then pySplit header_line else hs
  (headers.map strip).filter (fun h => h ≠ "")

/-- `SemanticFieldMapper._is_data_line`. -/
def is_data_line (line : String) : Bool :=
  let l := strip line
  if l = "" || decide (l.length < 5) then false
  else hasDate l || hasAmount l

def debitKeywords : List String :=
  ["payment", "expense", "bill", "charge", "purchase", "rent", "utility",
   "insurance", "license", "supplies", "marketing", "equipment", "freelancer"]

def creditKeywords : List String :=
  ["received", "deposit", "revenue", "income", "retainer", "consulting",
   "service", "client"]

/-- Debit-or-credit placement shared by the one-amount (5 columns) and
two-amount branches of `_split_line_into_columns`: reference prefix first
(DEP credit; CHQ or AUTO debit; OB balance only), then description
keywords, defaulting to debit.  `obCol` is what the source puts in the
balance slot of the OB case (the sole amount in the one-amount branch, the
trailing balance in the two-amount branch). -/
def placeAmount (date_part description reference amount balance obCol : String) :
    List String :=
  if pyStartsWith "DEP" reference then
    [date_part, description, reference, "", amount, balance]
  else if pyStartsWith "CHQ" reference || pyStartsWith "AUTO" reference then
    [date_part, description, reference, amount, "", balance]
  else if pyStartsWith "OB" reference then
    [date_part, description, reference, "", "", obCol]
  else
    let dl := toLowerStr description
    if debitKeywords.any (fun k => isSubstring k dl) then
      [date_part, description, reference, amount, "", balance]
    else if creditKeywords.any (fun k => isSubstring k dl) then
      [date_part, description, reference, "", amount, balance]
    else
      [date_part, description, reference, amount, "", balance]

/-- Column list produced by `SemanticFieldMapper._split_line_into_columns`
before the final clean/pad/truncate step. -/
def raw_columns (line : String) : List String :=
  if containsChar '\t' line then splitOnChar '\t' line
  else if containsChar '|' line then splitOnChar '|' line
  else
    let natural0 := splitMultiSpace line
    let natural := if natural0.length < 2 then pySplit line else natural0
    if dateAtStart line && decide (4 ≤ natural.length) then
      let date_part := natural.headD ""
      let amounts := natural.filter (fun c => isAmountToken c)
      if amounts.length = 1 then
        if natural.length = 4 then
          [natural.getD 0 "", natural.getD 1 "", natural.getD 2 "", "", "",
           natural.getD 3 ""]
        else
          let amount := amounts.headD ""
          let lastCol := natural.getLastD ""
          let balance := if lastCol ≠ amount then lastCol else ""
          let desc_parts :=
            if balance ≠ "" then ((natural.drop 1).dropLast).dropLast
            else (natural.drop 1).dropLast
          let description :=
            if 1 < desc_parts.length then joinWith " " desc_parts.dropLast
            else joinWith " " desc_parts
          let reference :=
            if 1 < desc_parts.length then desc_parts.getLastD "" else ""
          placeAmount date_part description reference amount balance amount
      else if amounts.length = 2 then
        let balance := amounts.getLastD ""
        let transaction_amount := amounts.headD ""
        let desc_parts := (natural.drop 1).filter (fun c => ¬ amounts.contains c)
        let description :=
          if 1 < desc_parts.length then joinWith " " desc_parts.dropLast
          else joinWith " " desc_parts
        let reference :=
          if 1 < desc_parts.length then desc_parts.getLastD "" else ""
        placeAmount date_part description reference transaction_amount balance
          balance
      else natural
    else natural

/-- `SemanticFieldMapper._split_line_into_columns`: raw columns, stripped,
padded with empty strings to the expected count and truncated beyond it. -/
def split_line_into_columns (line : String) (expected_columns : ℕ) : List String :=
  let cleaned := (raw_columns line).map strip
  (cleaned ++ List.replicate (expected_columns - cleaned.length) "").take
    expected_columns

/-- `SemanticFieldMapper._extract_sample_data`: per-column stripped nonempty
values from the data lines among the five lines after the header. -/
def extract_sample_data (lines : List String) (num_columns : ℕ) :
    List (List String) :=
  let dataLines := ((lines.drop 1).take 5).filter (fun l => is_data_line l)
  let colsList := dataLines.map (fun l => split_line_into_columns l num_columns)
  (List.range num_columns).map (fun i =>
    colsList.filterMap (fun cols =>
      let v := strip (cols.getD i "")
      if v = "" then none else some v))

/-- `SemanticFieldMapper._map_to_standard_name` (`type_to_name.get` falls
back to the original header for `UNKNOWN` and for the absent `ACCOUNT`). -/
def map_to_standard_name (ft : FieldType) (original : String) : String :=
  match ft with
  | .date => "Date"
  | .description => "Description"
  | .reference => "Reference"
  | .debit => "Debit Amount"
  | .credit => "Credit Amount"
  | .balance => "Balance"
  | .amount => "Amount"
  | .customer => "Customer"
  | .vendor => "Vendor"
  | .invoice_number => "Invoice Number"
  | .tax => "Tax"
  | .account => original
  | .unknown => original

/-- `SemanticFieldMapper.discover_fields`. -/
def discover_fields (table_lines : List String) : List FieldMapping :=
  if table_lines = [] then []
  else
    let header_line := find_header_line table_lines
    if header_line = "" then []
    else
      let headers := extract_headers header_line
      let sample_data := extract_sample_data table_lines headers.length
      headers.enum.map (fun p =>
        let sample_values := sample_data.getD p.1 []
        let ft := detect_field_type p.2 sample_values
        { original_name := p.2, field_type := ft,
          standard_name := map_to_standard_name ft p.2,
          confidence := 0.8, sample_values := sample_values.take 3 })

/-! ## DataExtractionOrchestrator -/

/-- `DataExtractionOrchestrator._process_field_value`. -/
def process_field_value (value : String) (ft : FieldType) : Option String :=
  if value = "" || ["", "-", "nil", "null"].contains (toLowerStr value) then none
  else if ft = .amount || ft = .debit || ft = .credit || ft = .balance then
    let cleaned : String := ⟨value.data.filter (fun c => c.isDigit || c = '.' || c = ',')⟩
    if cleaned ≠ "" then some cleaned else some value
  else some value

def toPyVal : Option String → PyVal
  | some s => .vstr s
  | none => .vnone

/-- The `record_data` dict built for one data line: each mapping's standard
name receives the processed value of its column (the guard `i < len(columns)`
of the source is kept), then the `id`, `confidence` and `source` metadata
entries are inserted; `nrec` is `len(records)` at that point. -/
def mkRecordData (field_mappings : List FieldMapping) (columns : List String)
    (nrec : ℕ) : Dict :=
  let base := field_mappings.enum.foldl
    (fun (d : Dict) p =>
      if p.1 < columns.length then
        dictInsert d p.2.standard_name
          (toPyVal (process_field_value (strip (columns.getD p.1 ""))
            p.2.field_type))
      else d) []
  let d1 := dictInsert base "id" (.vstr ("pdf-record-" ++ toString nrec))
  let d2 := dictInsert d1 "confidence" (.vnum 0.85)
  dictInsert d2 "source" (.vstr "universal_pdf_extraction")

/-- Record-building loop of `DataExtractionOrchestrator.extract_data` over the
region's lines with the header skipped; non-data lines are skipped, and each
new record's `row_index` is the number of records built so far. -/
def buildRecords (field_mappings : List FieldMapping) :
    List String → List ExtractedRecord → List ExtractedRecord
  | [], acc => acc
  | l :: rest, acc =>
    if is_data_line l then
      let columns := split_line_into_columns l field_mappings.length
      buildRecords field_mappings rest
        (acc ++ [{ row_index := acc.length,
                   data := mkRecordData field_mappings columns acc.length,
                   confidence := 0.85 }])
    else buildRecords field_mappings rest acc

/-- `DataExtractionOrchestrator.extract_data` (its internal `try` never fires
for the modelled total stages; the exception path is modelled separately for
the pipeline-level fault analysis). -/
def extract_data (table_region : TableRegion)
    (field_mappings : List FieldMapping) : ExtractionResult :=
  let records := buildRecords field_mappings (table_region.lines.drop 1) []
  { records := records,
    total_records := records.length,
    extraction_confidence := if records ≠ [] then 0.85 else 0.3,
    schema_detected :=
      [("format", "universal_pdf"),
       ("table_type", table_region.table_type),
       ("headers", joinWith ", " (field_mappings.map (fun m => m.standard_name)))],
    processing_notes :=
      ["Universal extraction: " ++ toString records.length ++ " records from " ++
        table_region.table_type ++ " table"] }

/-! ## Fallback line processing -/

/-- Start and end of the leftmost (greedy) match of the date regex, plus the
matched text, for `re.search` in `_fallback_line_processing`.  The greedy
quantifiers take the whole digit runs (capped at 4 for the year). -/
def findDateMatch (l : List Char) : Option (ℕ × ℕ) :=
  (List.range l.length).findSome? (fun i =>
    let t := l.drop i
    if dateAt t then
      let n1 := digitCount t
      let r1 := (afterDigits t).drop 1
      let n2 := digitCount r1
      let r2 := (afterDigits r1).drop 1
      let n3 := min 4 (digitCount r2)
      some (i, i + n1 + 1 + n2 + 1 + n3)
    else none)

/-- Text of the leftmost match of `[\d,]+\.?\d*` starting at or after the
head: maximal digit-or-comma run, then an optional dot followed by a maximal
digit run. -/
def firstAmountMatch (l : List Char) : Option String :=
  (List.range l.length).findSome? (fun i =>
    let t := l.drop i
    match t with
    | c :: _ =>
      if isDigitOrComma c then
        let run := t.takeWhile isDigitOrComma
        let rest := t.drop run.length
        match rest with
        | '.' :: r2 => some ⟨run ++ '.' :: r2.takeWhile Char.isDigit⟩
        | _ => some ⟨run⟩
      else none
    | [] => none)

/-- Python `haystack.find(needle, start)` (−1 when absent). -/
def pyFind (hay needle : String) (start : ℕ) : Int :=
  match ((List.range (hay.data.length + 1)).filter (fun i =>
    decide (start ≤ i) && needle.data.isPrefixOf (hay.data.drop i))).head? with
  | some i => (i : Int)
  | none => -1

/-- Python slice `s[a:b]` for a possibly negative `b`. -/
def pySlice (s : String) (a : ℕ) (b : Int) : String :=
  let len : Int := s.data.length
  let bb : ℤ := if b < 0 then max 0 (len + b) else min b len
  ⟨(s.data.take bb.toNat).drop a⟩

/-- `_fallback_line_processing` (the happy path of its `try`). -/
def fallback_line_processing (text : String) : ExtractionResult :=
  let records := (linesOf text).foldl
    (fun (acc : List ExtractedRecord) l =>
      let line := strip l
      if line = "" || decide (line.length < 10) then acc
      else
        match findDateMatch line.data, firstAmountMatch line.data with
        | some (ds, de), some amt =>
          let firstAmountStart := pyFind line amt de
          let description := strip (pySlice line de firstAmountStart)
          let dateText : String := ⟨(line.data.take de).drop ds⟩
          let rd : Dict :=
            [("Date", .vstr dateText), ("Description", .vstr description),
             ("Amount", .vstr amt),
             ("id", .vstr ("fallback-record-" ++ toString acc.length)),
             ("confidence", .vnum 0.6),
             ("source", .vstr "fallback_extraction")]
          acc ++ [{ row_index := acc.length, data := rd, confidence := 0.6 }]
        | _, _ => acc) []
  { records := records,
    total_records := records.length,
    extraction_confidence := if records ≠ [] then 0.6 else 0.2,
    schema_detected := [("format", "fallback_extraction")],
    processing_notes := ["Fallback extraction: " ++ toString records.length ++
      " records"] }

/-! ## Top-level pipeline with fault injection

`process_pdf_document` wraps the whole pipeline in a `try` that converts any
exception into a zero-record `ExtractionResult`; `extract_data` and
`_fallback_line_processing` each carry their own such handler.  The modelled
stages are total, so an "unexpected exception inside a stage" is represented
by an injected fault `(stage, message)`: when the executed path reaches that
stage the fault is raised there and caught by the innermost enclosing
handler, exactly as an exception would be. -/

inductive Stage where
  | classify | detect | fallback | mapFields | extract
deriving DecidableEq

/-- Failure result built by the `except` of `process_pdf_document`. -/
def topFailure (msg : String) : ExtractionResult :=
  { records := [], total_records := 0, extraction_confidence := 0,
    schema_detected := [],
    processing_notes := ["Universal PDF processing failed: " ++ msg] }

/-- Failure result built by the `except` of `extract_data`. -/
def extractFailure (msg : String) : ExtractionResult :=
  { records := [], total_records := 0, extraction_confidence := 0,
    schema_detected := [],
    processing_notes := ["Data extraction failed: " ++ msg] }

/-- Failure result built by the `except` of `_fallback_line_processing`. -/
def fallbackFailure (msg : String) : ExtractionResult :=
  { records := [], total_records := 0, extraction_confidence := 0,
    schema_detected := [],
    processing_notes := ["Fallback processing failed: " ++ msg] }

/-- Python `max(table_regions, key=lambda t: t.confidence)`: first region of
maximal confidence. -/
def bestRegion : List TableRegion → TableRegion
  | [] => mkRegion 0 0 []
  | r :: rs => rs.foldl (fun b y => if b.confidence < y.confidence then y else b) r

/-- `process_pdf_document` on already-extracted text (PDF-to-text is the
upstream collaborator outside this core), with an optional injected fault. -/
def process_pdf_document (fault : Option (Stage × String)) (text : String) :
    ExtractionResult :=
  let faultAt := fun (st : Stage) =>
    match fault with
    | some (s, m) => if s = st then some m else none
    | none => none
  match faultAt .classify with
  | some m => topFailure m
  | none =>
    let _cls := classify_document_type text
    match faultAt .detect with
    | some m => topFailure m
    | none =>
      let regions := detect_table_boundaries text
      if regions = [] then
        match faultAt .fallback with
        | some m => fallbackFailure m
        | none => fallback_line_processing text
      else
        let best := bestRegion regions
        match faultAt .mapFields with
        | some m => topFailure m
        | none =>
          let fms := discover_fields best.lines
          match faultAt .extract with
          | some m => extractFailure m
          | none => extract_data best fms

/-- Whether the executed path of `process_pdf_document` reaches a stage. -/
def reaches (text : String) (st : Stage) : Bool :=
  match st with
  | .classify => true
  | .detect => true
  | .fallback => detect_table_boundaries text = []
  | .mapFields => detect_table_boundaries text ≠ []
  | .extract => detect_table_boundaries text ≠ []

/-! ## Concrete inputs used by the claims -/

/-- Scenario A text of the spec: header line plus two transaction lines. -/
def scenarioA : String :=
  "Date Description Reference Debit Credit Balance\n01/02/2025  Office Rent Payment  CHQ001  15,000.00  35,000.00\n01/03/2025  Client Payment Received  DEP001  25,000.00  60,000.00"

def emptyRegion : TableRegion := mkRegion 0 0 []

def emptyRecord : ExtractedRecord := { row_index := 0, data := [], confidence := 0 }

def regionA : TableRegion := (detect_table_boundaries scenarioA).headD emptyRegion

def mappingsA : List FieldMapping := discover_fields regionA.lines

def resultA : ExtractionResult := extract_data regionA mappingsA

/-- Ten tab-separated lines without digits followed by three date lines:
the single detected region dilutes its date/amount ratios below 0.5. -/
def c2Text : String :=
  "a\tb\na\tb\na\tb\na\tb\na\tb\na\tb\na\tb\na\tb\na\tb\na\tb\n1/1/20 x 1.00\n1/1/20 x 1.00\n1/1/20 x 1.00"

/-- Three consecutive raw lines starting at index `i` that each contain a
date pattern and a numeric amount pattern (the premise of claim C2). -/
def threeTableLinesAt (lines : List String) (i : ℕ) : Bool :=
  decide (i + 2 < lines.length) &&
  (hasDate (lines.getD i "") && hasAmount (lines.getD i "")) &&
  (hasDate (lines.getD (i + 1) "") && hasAmount (lines.getD (i + 1) "")) &&
  (hasDate (lines.getD (i + 2) "") && hasAmount (lines.getD (i + 2) ""))

/-- Three date lines, then a non-blank prose line, then one more date line:
the prose line closes the open region before the end of the text. -/
def c3Text : String :=
  "1/1/20 a 1,0\n1/1/20 b 2,0\n1/1/20 c 3,0\nhello world\n1/1/20 d 4,0"

/-- Region whose middle data candidate is a tab-separated line without
digits: it passes `_is_table_line` but fails `_is_data_line`, so the
orchestrator skips it. -/
def regionC8 : TableRegion :=
  { start_line := 0, end_line := 3,
    lines := ["Date Description Amount", "1/1/20  x  1,0", "ab\tcd\tefg",
      "2/1/20  y  2,0"],
    confidence := 1, table_type := "space_separated" }

def mappingsC8 : List FieldMapping :=
  [{ original_name := "Date", field_type := .date, standard_name := "Date",
     confidence := 0.8, sample_values := [] },
   { original_name := "Description", field_type := .unknown,
     standard_name := "Description", confidence := 0.8, sample_values := [] },
   { original_name := "Amount", field_type := .amount, standard_name := "Amount",
     confidence := 0.8, sample_values := [] }]

/-- Line positions (0-based, header excluded) of the data lines of a region:
what claim C8 says each record's `row_index` equals. -/
def dataLineIndices (region : TableRegion) : List ℕ :=
  (region.lines.drop 1).enum.filterMap
    (fun p => if is_data_line p.2 then some p.1 else none)

/-- Property claim C5 asserts of a processed amount-typed value: null, or a
string of digits, commas and at most one decimal point. -/
def amountValueOk (v : Option String) : Bool :=
  match v with
  | none => true
  | some s =>
    s.data.all (fun c => c.isDigit || c = '.' || c = ',') &&
      decide (s.data.count '.' ≤ 1)

/-! # Theorems

Batteries marks the rational operations `@[irreducible]`; evaluation of the
embedded confidences inside `decide` needs them restored to the default
transparency. -/

attribute [local semireducible] Rat.add Rat.mul Rat.inv Rat.ofScientific

/-- Claim C1 (corrected): on the scenario-A text the detector returns exactly
one region with confidence above 0.6; the field mapper assigns the six
columns the standard names Date, Credit Amount, Reference, Debit Amount,
Credit Amount, Balance (the Description header is typed as a credit column
because "description" contains the credit keyword "cr", which is tested
before the description keywords); the first extracted record has
Debit Amount = "15,000.00" and Credit Amount = null, and the second record
has Credit Amount = "25,000.00". -/
theorem c1_scenario_pipeline :
    (detect_table_boundaries scenarioA).length = 1 ∧
    regionA.confidence > 0.6 ∧
    mappingsA.map (fun m => m.standard_name) =
      ["Date", "Credit Amount", "Reference", "Debit Amount", "Credit Amount",
       "Balance"] ∧
    resultA.records.length = 2 ∧
    dictGet (resultA.records.getD 0 emptyRecord).data "Debit Amount" =
      some (.vstr "15,000.00") ∧
    dictGet (resultA.records.getD 0 emptyRecord).data "Credit Amount" =
      some .vnone ∧
    dictGet (resultA.records.getD 1 emptyRecord).data "Credit Amount" =
      some (.vstr "25,000.00") := by
  decide

/-- Claim C1 as stated is false: the field mapper does not assign the
standard name "Description" to the second column of the scenario-A header;
it assigns "Credit Amount". -/
theorem c1_counterexample :
    ¬ (mappingsA.map (fun m => m.standard_name) =
      ["Date", "Description", "Reference", "Debit Amount", "Credit Amount",
       "Balance"]) := by
  decide

/-- Claim C5 as stated is false: for the debit-typed value "1.2.3" the
post-processing keeps both decimal points, so the stored string is not made
of digits, commas and at most one decimal point (and is not null). -/
theorem c5_counterexample :
    amountValueOk (process_field_value "1.2.3" FieldType.debit) = false := by
  decide

/-- Claim C5 (corrected): a value assigned to an AMOUNT, DEBIT, CREDIT or
BALANCE field is stored as null, or as a nonempty string containing only
digits, commas and decimal points (possibly more than one), or — when the
value contains no digit, comma or point at all, so that cleaning it leaves
nothing — as the original value unchanged. -/
theorem c5_amount_normalization (value : String) (ft : FieldType)
    (h : ft = .amount ∨ ft = .debit ∨ ft = .credit ∨ ft = .balance) :
    process_field_value value ft = none ∨
    (∃ s, process_field_value value ft = some s ∧ s ≠ "" ∧
      s.data.all (fun c => c.isDigit || c = '.' || c = ',') = true) ∨
    (process_field_value value ft = some value ∧
      value.data.all (fun c => !(c.isDigit || c = '.' || c = ',')) = true) := by
  unfold process_field_value
  by_cases h0 : (value = "" || ["", "-", "nil", "null"].contains (toLowerStr value)) = true
  · left
    simp only [h0, if_true]
  · rw [if_neg h0]
    have hft : (ft = FieldType.amount || ft = FieldType.debit ||
        ft = FieldType.credit || ft = FieldType.balance) = true := by
      rcases h with h | h | h | h <;> subst h <;> rfl
    rw [if_pos hft]
    by_cases hc : (⟨value.data.filter (fun c => c.isDigit || c = '.' || c = ',')⟩ : String) = ""
    · right; right
      rw [if_neg (by simp [hc])]
      refine ⟨rfl, ?_⟩
      have hnil : value.data.filter (fun c => c.isDigit || c = '.' || c = ',') = [] := by
        have := congrArg String.data hc
        simpa using this
      rw [List.filter_eq_nil_iff] at hnil
      rw [List.all_eq_true]
      intro c hcmem
      simpa using hnil c hcmem
    · right; left
      rw [if_pos (by simp [hc])]
      refine ⟨_, rfl, hc, ?_⟩
      rw [List.all_eq_true]
      intro c hcmem
      exact (List.mem_filter.mp hcmem).2

/-- Claim C5 witness: the corrected normalization at the concrete debit
value "15,000.00". -/
theorem c5_witness :
    process_field_value "15,000.00" FieldType.debit = none ∨
    (∃ s, process_field_value "15,000.00" FieldType.debit = some s ∧ s ≠ "" ∧
      s.data.all (fun c => c.isDigit || c = '.' || c = ',') = true) ∨
    (process_field_value "15,000.00" FieldType.debit = some "15,000.00" ∧
      "15,000.00".data.all (fun c => !(c.isDigit || c = '.' || c = ',')) = true) :=
  c5_amount_normalization "15,000.00" FieldType.debit (Or.inr (Or.inl rfl))

/-- Claim C10: a line with at least 3 whitespace-separated tokens and at
least one digit or comma character always counts as table data, because the
amount regex matches any single digit or comma. -/
theorem c10_prose_counts_as_table_line (line : String)
    (htok : 3 ≤ (pySplit line).length)
    (hch : line.data.any isDigitOrComma = true) :
    is_table_line line = true := by
  unfold is_table_line hasAmount
  simp [htok, hch]

/-- Claim C10 witness: the prose line "Hello, world again" has 3 tokens and a
comma, and is classified as table data. -/
theorem c10_witness :
    3 ≤ (pySplit "Hello, world again").length ∧
    "Hello, world again".data.any isDigitOrComma = true ∧
    is_table_line "Hello, world again" = true :=
  ⟨by decide, by decide,
    c10_prose_counts_as_table_line "Hello, world again" (by decide) (by decide)⟩

/-- Claim C6: when a fault is injected at any stage the executed path
reaches, the top-level pipeline returns an `ExtractionResult` with no
records, `total_records = 0`, `extraction_confidence = 0`, and a single
processing note that describes the failure (it ends with the fault
message); no exception escapes — the function is total on
`ExtractionResult`. -/
theorem c6_exception_isolation (text msg : String) (st : Stage)
    (h : reaches text st = true) :
    (process_pdf_document (some (st, msg)) text).records = [] ∧
    (process_pdf_document (some (st, msg)) text).total_records = 0 ∧
    (process_pdf_document (some (st, msg)) text).extraction_confidence = 0 ∧
    ∃ p : String,
      (process_pdf_document (some (st, msg)) text).processing_notes =
        [p ++ msg] := by
  cases st with
  | classify =>
    exact ⟨rfl, rfl, rfl, "Universal PDF processing failed: ", rfl⟩
  | detect =>
    exact ⟨rfl, rfl, rfl, "Universal PDF processing failed: ", rfl⟩
  | fallback =>
    have hreg : detect_table_boundaries text = [] := by
      simpa [reaches] using h
    simp only [process_pdf_document, hreg, if_pos]
    exact ⟨rfl, rfl, rfl, "Fallback processing failed: ", rfl⟩
  | mapFields =>
    have hreg : ¬ detect_table_boundaries text = [] := by
      simpa [reaches] using h
    simp only [process_pdf_document, if_neg hreg]
    exact ⟨rfl, rfl, rfl, "Universal PDF processing failed: ", rfl⟩
  | extract =>
    have hreg : ¬ detect_table_boundaries text = [] := by
      simpa [reaches] using h
    simp only [process_pdf_document, if_neg hreg]
    exact ⟨rfl, rfl, rfl, "Data extraction failed: ", rfl⟩

/-- Claim C6 witness: a fault injected in the detection stage on a concrete
text yields the failure-shaped result. -/
theorem c6_witness :
    (process_pdf_document (some (Stage.detect, "boom")) "x").records = [] ∧
    (process_pdf_document (some (Stage.detect, "boom")) "x").total_records = 0 ∧
    (process_pdf_document (some (Stage.detect, "boom")) "x").extraction_confidence = 0 ∧
    ∃ p : String,
      (process_pdf_document (some (Stage.detect, "boom")) "x").processing_notes =
        [p ++ "boom"] :=
  c6_exception_isolation "x" "boom" Stage.detect rfl

/-! ## Strip idempotence and the splitter (claim C9) -/

lemma dropWhile_head_false {p : Char → Bool} :
    ∀ {l : List Char} {c : Char} {t : List Char},
      l.dropWhile p = c :: t → p c = false := by
  intro l
  induction l with
  | nil => intro c t h; simp at h
  | cons a l ih =>
    intro c t h
    by_cases ha : p a = true
    · rw [List.dropWhile_cons_of_pos ha] at h
      exact ih h
    · rw [List.dropWhile_cons_of_neg ha] at h
      obtain ⟨rfl, rfl⟩ := List.cons.inj h
      simpa using ha

lemma dropWhile_idem (p : Char → Bool) (l : List Char) :
    (l.dropWhile p).dropWhile p = l.dropWhile p := by
  cases h : l.dropWhile p with
  | nil => simp
  | cons c t =>
    rw [List.dropWhile_cons_of_neg (by simp [dropWhile_head_false h])]

lemma trimRightL_decomp (l : List Char) :
    ∃ w, (∀ c ∈ w, pyIsSpace c = true) ∧ trimRightL l ++ w = l := by
  refine ⟨(l.reverse.takeWhile pyIsSpace).reverse, ?_, ?_⟩
  · intro c hc
    rw [List.mem_reverse] at hc
    exact List.mem_takeWhile_imp hc
  · unfold trimRightL
    rw [← List.reverse_append, List.takeWhile_append_dropWhile,
      List.reverse_reverse]

lemma trimLeftL_trimRightL_trimLeftL (m : List Char) :
    trimLeftL (trimRightL (trimLeftL m)) = trimRightL (trimLeftL m) := by
  cases hy : trimLeftL m with
  | nil => rfl
  | cons c t =>
    have hc : pyIsSpace c = false := dropWhile_head_false hy
    obtain ⟨w, hw, hwl⟩ := trimRightL_decomp (c :: t)
    cases hr : trimRightL (c :: t) with
    | nil => rfl
    | cons c2 t2 =>
      rw [hr] at hwl
      obtain ⟨rfl, -⟩ := List.cons.inj hwl
      unfold trimLeftL
      rw [List.dropWhile_cons_of_neg (by simp [hc])]

lemma stripL_idem (l : List Char) : stripL (stripL l) = stripL l := by
  unfold stripL
  rw [trimLeftL_trimRightL_trimLeftL l]
  unfold trimRightL
  rw [List.reverse_reverse, dropWhile_idem]

lemma strip_strip (s : String) : strip (strip s) = strip s :=
  congrArg String.mk (stripL_idem s.data)

lemma pad_take_length (c : List String) (n : ℕ) :
    ((c ++ List.replicate (n - c.length) "").take n).length = n := by
  simp only [List.length_take, List.length_append, List.length_replicate]
  omega

lemma pad_take_eq (c : List String) (n : ℕ) :
    (c ++ List.replicate (n - c.length) "").take n =
      c.take n ++ List.replicate (n - c.length) "" := by
  rcases Nat.le_total n c.length with h | h
  · have h0 : n - c.length = 0 := by omega
    rw [h0]
    simp [List.take_append_of_le_length h]
  · have hlen : (c ++ List.replicate (n - c.length) "").length = n := by
      simp only [List.length_append, List.length_replicate]
      omega
    rw [List.take_of_length_le (le_of_eq hlen), List.take_of_length_le h]

/-- Claim C9: for every line and expected column count `n` the splitter is
total and returns exactly `n` values; every value is trimmed (stripping it
again changes nothing), and the result is the stripped raw columns truncated
to `n` and padded with empty strings up to `n`. -/
theorem c9_split_into_columns_total (line : String) (n : ℕ) :
    (split_line_into_columns line n).length = n ∧
    (split_line_into_columns line n).all (fun v => strip v == v) = true ∧
    split_line_into_columns line n =
      ((raw_columns line).map strip).take n ++
        List.replicate (n - ((raw_columns line).map strip).length) "" := by
  have h1 : split_line_into_columns line n =
      ((raw_columns line).map strip ++
        List.replicate (n - ((raw_columns line).map strip).length) "").take n :=
    rfl
  refine ⟨by rw [h1]; exact pad_take_length _ _, ?_, by rw [h1]; exact pad_take_eq _ _⟩
  rw [h1, List.all_eq_true]
  intro v hv
  have hv' := (List.take_sublist _ _).subset hv
  rw [List.mem_append] at hv'
  rcases hv' with hv' | hv'
  · obtain ⟨x, -, rfl⟩ := List.mem_map.mp hv'
    simp [strip_strip x]
  · rw [List.eq_of_mem_replicate hv']
    rfl

/-! ## Classifier (claim C7) -/

lemma pyMaxScore4 (a b c d : String) (sa sb2 sc sd : ℕ) :
    ∃ i, i < 4 ∧
      pyMaxScore [(a, sa), (b, sb2), (c, sc), (d, sd)] =
        [(a, sa), (b, sb2), (c, sc), (d, sd)].getD i ("", 0) ∧
      ([(a, sa), (b, sb2), (c, sc), (d, sd)].getD i ("", 0)).2 =
        [sa, sb2, sc, sd].foldr max 0 ∧
      ∀ j, j < i →
        ([(a, sa), (b, sb2), (c, sc), (d, sd)].getD j ("", 0)).2 <
          [sa, sb2, sc, sd].foldr max 0 := by
  simp only [pyMaxScore, List.foldl_cons, List.foldl_nil, List.foldr_cons,
    List.foldr_nil]
  by_cases h1 : sa < sb2
  · rw [if_pos h1]
    by_cases h2 : sb2 < sc
    · rw [if_pos h2]
      by_cases h3 : sc < sd
      · rw [if_pos h3]
        refine ⟨3, by omega, rfl, ?_, ?_⟩
        · simp only [List.getD_cons_succ, List.getD_cons_zero]
          omega
        · intro j hj
          interval_cases j <;>
            simp only [List.getD_cons_succ, List.getD_cons_zero] <;> omega
      · rw [if_neg h3]
        refine ⟨2, by omega, rfl, ?_, ?_⟩
        · simp only [List.getD_cons_succ, List.getD_cons_zero]
          omega
        · intro j hj
          interval_cases j <;>
            simp only [List.getD_cons_succ, List.getD_cons_zero] <;> omega
    · rw [if_neg h2]
      by_cases h3 : sb2 < sd
      · rw [if_pos h3]
        refine ⟨3, by omega, rfl, ?_, ?_⟩
        · simp only [List.getD_cons_succ, List.getD_cons_zero]
          omega
        · intro j hj
          interval_cases j <;>
            simp only [List.getD_cons_succ, List.getD_cons_zero] <;> omega
      · rw [if_neg h3]
        refine ⟨1, by omega, rfl, ?_, ?_⟩
        · simp only [List.getD_cons_succ, List.getD_cons_zero]
          omega
        · intro j hj
          interval_cases j <;>
            simp only [List.getD_cons_succ, List.getD_cons_zero] <;> omega
  · rw [if_neg h1]
    by_cases h2 : sa < sc
    · rw [if_pos h2]
      by_cases h3 : sc < sd
      · rw [if_pos h3]
        refine ⟨3, by omega, rfl, ?_, ?_⟩
        · simp only [List.getD_cons_succ, List.getD_cons_zero]
          omega
        · intro j hj
          interval_cases j <;>
            simp only [List.getD_cons_succ, List.getD_cons_zero] <;> omega
      · rw [if_neg h3]
        refine ⟨2, by omega, rfl, ?_, ?_⟩
        · simp only [List.getD_cons_succ, List.getD_cons_zero]
          omega
        · intro j hj
          interval_cases j <;>
            simp only [List.getD_cons_succ, List.getD_cons_zero] <;> omega
    · rw [if_neg h2]
      by_cases h3 : sa < sd
      · rw [if_pos h3]
        refine ⟨3, by omega, rfl, ?_, ?_⟩
        · simp only [List.getD_cons_succ, List.getD_cons_zero]
          omega
        · intro j hj
          interval_cases j <;>
            simp only [List.getD_cons_succ, List.getD_cons_zero] <;> omega
      · rw [if_neg h3]
        refine ⟨0, by omega, rfl, ?_, ?_⟩
        · simp only [List.getD_cons_zero]
          omega
        · intro j hj
          omega

/-- Claim C7: the classifier returns the first of the four categories, in the
order bank_statement, invoice, sales_register, purchase_register, whose
keyword score reaches the maximum, with confidence
`min(top_score / 10, 1)`. -/
theorem c7_classifier_first_argmax (text : String) :
    ∃ i, i < (documentScores text).length ∧
      (classify_document_type text).1 = ((documentScores text).getD i ("", 0)).1 ∧
      ((documentScores text).getD i ("", 0)).2 =
        ((documentScores text).map Prod.snd).foldr max 0 ∧
      (∀ j, j < i → ((documentScores text).getD j ("", 0)).2 <
        ((documentScores text).map Prod.snd).foldr max 0) ∧
      (classify_document_type text).2 =
        min (((((documentScores text).map Prod.snd).foldr max 0 : ℕ) : ℚ) / 10) 1 := by
  obtain ⟨i, hi, hbest, hsnd, hlt⟩ :=
    pyMaxScore4 "bank_statement" "invoice" "sales_register" "purchase_register"
      (keywordScore bankIndicators (toLowerStr text))
      (keywordScore invoiceIndicators (toLowerStr text))
      (keywordScore salesIndicators (toLowerStr text))
      (keywordScore purchaseIndicators (toLowerStr text))
  refine ⟨i, hi, ?_, hsnd, hlt, ?_⟩
  · show (pyMaxScore (documentScores text)).1 = _
    rw [show documentScores text =
      [("bank_statement", keywordScore bankIndicators (toLowerStr text)),
       ("invoice", keywordScore invoiceIndicators (toLowerStr text)),
       ("sales_register", keywordScore salesIndicators (toLowerStr text)),
       ("purchase_register", keywordScore purchaseIndicators (toLowerStr text))]
      from rfl, hbest]
  · show min (((pyMaxScore (documentScores text)).2 : ℚ) / 10) 1 = _
    rw [show documentScores text =
      [("bank_statement", keywordScore bankIndicators (toLowerStr text)),
       ("invoice", keywordScore invoiceIndicators (toLowerStr text)),
       ("sales_register", keywordScore salesIndicators (toLowerStr text)),
       ("purchase_register", keywordScore purchaseIndicators (toLowerStr text))]
      from rfl, hbest, hsnd]
    rfl

/-! ## Record construction (claims C4 and C8) -/

lemma split_line_length (line : String) (n : ℕ) :
    (split_line_into_columns line n).length = n :=
  pad_take_length ((raw_columns line).map strip) n

lemma dictInsert_keys_toFinset (d : Dict) (k : String) (v : PyVal) :
    (dictKeys (dictInsert d k v)).toFinset = insert k (dictKeys d).toFinset := by
  unfold dictInsert dictKeys
  by_cases h : d.any (fun p => p.1 = k) = true
  · rw [if_pos h]
    have hmap : (d.map (fun p => if p.1 = k then (k, v) else p)).map Prod.fst =
        d.map Prod.fst := by
      rw [List.map_map]
      apply List.map_congr_left
      intro p _
      by_cases hpk : p.1 = k
      · simp [hpk]
      · simp [hpk]
    rw [hmap]
    rw [List.any_eq_true] at h
    obtain ⟨p, hp, hpk⟩ := h
    have hk : k ∈ (d.map Prod.fst).toFinset := by
      rw [List.mem_toFinset, List.mem_map]
      exact ⟨p, hp, by simpa using hpk⟩
    rw [Finset.insert_eq_self.mpr hk]
  · rw [if_neg h, List.map_append, List.toFinset_append]
    ext x
    simp only [Finset.mem_union, Finset.mem_insert, List.mem_toFinset,
      List.mem_singleton, List.map_cons, List.map_nil]
    tauto

lemma foldl_insert_keys (cols : List String) :
    ∀ (ps : List (ℕ × FieldMapping)) (d : Dict),
      (∀ p ∈ ps, p.1 < cols.length) →
      (dictKeys (ps.foldl (fun d p =>
          if p.1 < cols.length then
            dictInsert d p.2.standard_name
              (toPyVal (process_field_value (strip (cols.getD p.1 ""))
                p.2.field_type))
          else d) d)).toFinset =
        (dictKeys d).toFinset ∪
          (ps.map (fun p => p.2.standard_name)).toFinset := by
  intro ps
  induction ps with
  | nil =>
    intro d _
    simp
  | cons q ps ih =>
    intro d hps
    rw [List.foldl_cons, if_pos (hps q (by simp))]
    rw [ih _ (fun p hp => hps p (by simp [hp]))]
    rw [dictInsert_keys_toFinset]
    simp only [List.map_cons, List.toFinset_cons]
    ext x
    simp only [Finset.mem_union, Finset.mem_insert, List.mem_toFinset]
    tauto

lemma mkRecordData_keys (fms : List FieldMapping) (cols : List String) (n : ℕ)
    (h : fms.length ≤ cols.length) :
    (dictKeys (mkRecordData fms cols n)).toFinset =
      (fms.map (fun m => m.standard_name)).toFinset ∪
        {"id", "confidence", "source"} := by
  unfold mkRecordData
  rw [dictInsert_keys_toFinset, dictInsert_keys_toFinset,
    dictInsert_keys_toFinset, foldl_insert_keys]
  · have henum : fms.enum.map (fun p => p.2.standard_name) =
        fms.map (fun m => m.standard_name) := by
      rw [show (fun p : ℕ × FieldMapping => p.2.standard_name) =
        (fun m : FieldMapping => m.standard_name) ∘ Prod.snd from rfl,
        ← List.map_map, List.enum_map_snd]
    rw [henum]
    ext x
    simp only [Finset.mem_union, Finset.mem_insert, List.mem_toFinset,
      Finset.mem_singleton, Finset.not_mem_empty, false_or]
    tauto
  · intro p hp
    obtain ⟨i, m⟩ := p
    have := List.mem_enumFrom hp
    simp only at this
    omega

lemma buildRecords_data (fms : List FieldMapping) :
    ∀ (ls : List String) (acc : List ExtractedRecord) (r : ExtractedRecord),
      r ∈ buildRecords fms ls acc →
      r ∈ acc ∨ ∃ cols n, cols.length = fms.length ∧
        r.data = mkRecordData fms cols n := by
  intro ls
  induction ls with
  | nil =>
    intro acc r hr
    exact Or.inl hr
  | cons l ls ih =>
    intro acc r hr
    rw [buildRecords] at hr
    by_cases hd : is_data_line l = true
    · rw [if_pos hd] at hr
      rcases ih _ r hr with h | h
      · rw [List.mem_append] at h
        rcases h with h | h
        · exact Or.inl h
        · right
          rw [List.mem_singleton] at h
          subst h
          exact ⟨split_line_into_columns l fms.length, acc.length,
            split_line_length l fms.length, rfl⟩
      · exact Or.inr h
    · rw [if_neg hd] at hr
      exact ih _ r hr

/-- Claim C4 as stated is false: the first record of the scenario-A
extraction carries the metadata keys `id`, `confidence` and `source` in its
`data` mapping, so its key set is not exactly the set of discovered standard
names. -/
theorem c4_counterexample :
    ¬ ((dictKeys (resultA.records.getD 0 emptyRecord).data).toFinset =
      (mappingsA.map (fun m => m.standard_name)).toFinset) := by
  decide

/-- Claim C4 (corrected): every record's `data` key set equals the set of
standard names of the discovered field mappings together with the three
metadata keys `id`, `confidence` and `source` that `extract_data` adds to
each record. -/
theorem c4_record_keys (tr : TableRegion) (fms : List FieldMapping) :
    ∀ r ∈ (extract_data tr fms).records,
      (dictKeys r.data).toFinset =
        (fms.map (fun m => m.standard_name)).toFinset ∪
          {"id", "confidence", "source"} := by
  intro r hr
  rcases buildRecords_data fms (tr.lines.drop 1) [] r hr with h | ⟨cols, n, hlen, hdata⟩
  · simp at h
  · rw [hdata]
    exact mkRecordData_keys fms cols n (le_of_eq hlen.symm)

/-- Claim C4 witness: the corrected key-set identity on the first
scenario-A record. -/
theorem c4_witness :
    (dictKeys (resultA.records.getD 0 emptyRecord).data).toFinset =
      (mappingsA.map (fun m => m.standard_name)).toFinset ∪
        {"id", "confidence", "source"} :=
  c4_record_keys regionA mappingsA (resultA.records.getD 0 emptyRecord)
    (by decide)

lemma buildRecords_row_index (fms : List FieldMapping) :
    ∀ (ls : List String) (acc : List ExtractedRecord),
      (∀ k, k < acc.length → (acc.getD k emptyRecord).row_index = k) →
      ∀ k, k < (buildRecords fms ls acc).length →
        ((buildRecords fms ls acc).getD k emptyRecord).row_index = k := by
  intro ls
  induction ls with
  | nil =>
    intro acc hacc k hk
    exact hacc k hk
  | cons l ls ih =>
    intro acc hacc
    by_cases hd : is_data_line l = true
    · have heq : buildRecords fms (l :: ls) acc =
          buildRecords fms ls (acc ++
            [{ row_index := acc.length,
               data := mkRecordData fms
                 (split_line_into_columns l fms.length) acc.length,
               confidence := 0.85 }]) := by
        rw [buildRecords, if_pos hd]
      rw [heq]
      apply ih
      intro k hk
      rcases Nat.lt_or_ge k acc.length with hlt | hge
      · rw [List.getD_append _ _ _ _ hlt]
        exact hacc k hlt
      · have hk' : k = acc.length := by
          simp only [List.length_append, List.length_singleton] at hk
          omega

        rw [List.getD_append_right _ _ _ _ hge, hk']
        simp
    · have heq : buildRecords fms (l :: ls) acc = buildRecords fms ls acc := by
        rw [buildRecords, if_neg hd]
      rw [heq]
      exact ih acc hacc

/-- Claim C8 as stated is false: in a region whose second data candidate is
skipped by the data-line test, the record built from the line at position 2
(header excluded) gets `row_index` 1, not its line position. -/
theorem c8_counterexample :
    ¬ ((extract_data regionC8 mappingsC8).records.map (fun r => r.row_index) =
      dataLineIndices regionC8) := by
  decide

/-- Claim C8 (corrected): `row_index` equals the record's 0-based position in
the returned record list — records are numbered consecutively in the order
they are produced, with skipped lines not counted. -/
theorem c8_row_index_consecutive (tr : TableRegion) (fms : List FieldMapping) :
    ∀ k, k < (extract_data tr fms).records.length →
      ((extract_data tr fms).records.getD k emptyRecord).row_index = k := by
  intro k hk
  exact buildRecords_row_index fms (tr.lines.drop 1) []
    (fun k hk => by simp at hk) k hk

/-- Claim C8 witness: the second record of the C8 region has `row_index` 1
(its source line sits at position 2 of the region's tail). -/
theorem c8_witness :
    ((extract_data regionC8 mappingsC8).records.getD 1 emptyRecord).row_index = 1 :=
  c8_row_index_consecutive regionC8 mappingsC8 1 (by decide)

/-! ## Pattern scanners and whitespace (bridges for claims C2 and C3) -/

lemma ws_not_digit (c : Char) (h : pyIsSpace c = true) : c.isDigit = false := by
  simp only [pyIsSpace, Bool.or_eq_true, decide_eq_true_eq] at h
  rcases h with ((((h | h) | h) | h) | h) | h <;> subst h <;> decide

lemma ws_not_sep (c : Char) (h : pyIsSpace c = true) : isSep c = false := by
  simp only [pyIsSpace, Bool.or_eq_true, decide_eq_true_eq] at h
  rcases h with ((((h | h) | h) | h) | h) | h <;> subst h <;> decide

lemma ws_not_digitOrComma (c : Char) (h : pyIsSpace c = true) :
    isDigitOrComma c = false := by
  simp only [pyIsSpace, Bool.or_eq_true, decide_eq_true_eq] at h
  rcases h with ((((h | h) | h) | h) | h) | h <;> subst h <;> decide

lemma digitCount_append (u w : List Char)
    (hw : ∀ c ∈ w, c.isDigit = false) : digitCount (u ++ w) = digitCount u := by
  induction u with
  | nil =>
    rw [List.nil_append]
    cases w with
    | nil => rfl
    | cons c t =>
      have hc : c.isDigit = false := hw c (by simp)
      rw [digitCount, List.takeWhile_cons_of_neg (by simp [hc])]
      rfl
  | cons c u ih =>
    by_cases hc : c.isDigit = true
    · simp only [digitCount, List.cons_append, List.takeWhile_cons_of_pos hc,
        List.length_cons]
      simp only [digitCount] at ih
      omega
    · have hc' : ¬ c.isDigit = true := hc
      simp only [digitCount, List.cons_append,
        List.takeWhile_cons_of_neg hc', List.length_nil]

lemma afterDigits_append (u w : List Char)
    (hw : ∀ c ∈ w, c.isDigit = false) (hu : afterDigits u ≠ []) :
    afterDigits (u ++ w) = afterDigits u ++ w := by
  induction u with
  | nil => simp [afterDigits] at hu
  | cons c u ih =>
    by_cases hc : c.isDigit = true
    · rw [afterDigits, List.cons_append, List.dropWhile_cons_of_pos hc]
      rw [afterDigits, List.dropWhile_cons_of_pos hc] at hu ⊢
      exact ih hu
    · rw [afterDigits, List.cons_append, List.dropWhile_cons_of_neg (by simp [hc])]
      rw [afterDigits, List.dropWhile_cons_of_neg (by simp [hc])]
      rfl

lemma afterDigits_append_all (u w : List Char) (hu : afterDigits u = []) :
    afterDigits (u ++ w) = afterDigits w := by
  rw [afterDigits, List.dropWhile_eq_nil_iff] at hu
  induction u with
  | nil => rfl
  | cons c u ih =>
    rw [afterDigits, List.cons_append, List.dropWhile_cons_of_pos (hu c (by simp))]
    exact ih (fun x hx => hu x (by simp [hx]))

lemma dateAt_append (u w : List Char) (hw : ∀ c ∈ w, pyIsSpace c = true) :
    dateAt (u ++ w) = dateAt u := by
  have hwd : ∀ c ∈ w, c.isDigit = false := fun c hc => ws_not_digit c (hw c hc)
  by_cases h1 : afterDigits u = []
  · cases w with
    | nil => rw [List.append_nil]
    | cons c2 t2 =>
      have hnd : c2.isDigit = false := hwd c2 (by simp)
      have hns : isSep c2 = false := ws_not_sep c2 (hw c2 (by simp))
      have ha : afterDigits (u ++ (c2 :: t2)) = c2 :: t2 := by
        rw [afterDigits_append_all u _ h1, afterDigits,
          List.dropWhile_cons_of_neg (by simp [hnd])]
      simp [dateAt, ha, h1, hns]
  · obtain ⟨c, r1, hcr⟩ : ∃ c r1, afterDigits u = c :: r1 := by
      cases h : afterDigits u with
      | nil => exact absurd h h1
      | cons c r1 => exact ⟨c, r1, rfl⟩
    have ha : afterDigits (u ++ w) = c :: (r1 ++ w) := by
      rw [afterDigits_append u w hwd h1, hcr, List.cons_append]
    have hdc : digitCount (u ++ w) = digitCount u := digitCount_append u w hwd
    by_cases h2 : afterDigits r1 = []
    · cases w with
      | nil => rw [List.append_nil]
      | cons c2 t2 =>
        have hnd : c2.isDigit = false := hwd c2 (by simp)
        have hns : isSep c2 = false := ws_not_sep c2 (hw c2 (by simp))
        have ha2 : afterDigits (r1 ++ (c2 :: t2)) = c2 :: t2 := by
          rw [afterDigits_append_all r1 _ h2, afterDigits,
            List.dropWhile_cons_of_neg (by simp [hnd])]
        simp [dateAt, ha, hcr, ha2, h2, hns, hdc]
    · obtain ⟨c2, r2, hcr2⟩ : ∃ c2 r2, afterDigits r1 = c2 :: r2 := by
        cases h : afterDigits r1 with
        | nil => exact absurd h h2
        | cons c2 r2 => exact ⟨c2, r2, rfl⟩
      have ha2 : afterDigits (r1 ++ w) = c2 :: (r2 ++ w) := by
        rw [afterDigits_append r1 w hwd h2, hcr2, List.cons_append]
      have hdc2 : digitCount (r1 ++ w) = digitCount r1 := digitCount_append r1 w hwd
      have hdc3 : digitCount (r2 ++ w) = digitCount r2 := digitCount_append r2 w hwd
      simp [dateAt, ha, hcr, ha2, hcr2, hdc, hdc2, hdc3]

lemma dateAt_cons_not_digit (c : Char) (t : List Char) (h : c.isDigit = false) :
    dateAt (c :: t) = false := by
  have h' : ¬ c.isDigit = true := by simp [h]
  have ha : afterDigits (c :: t) = c :: t := by
    rw [afterDigits, List.dropWhile_cons_of_neg h']
  have hd : digitCount (c :: t) = 0 := by
    rw [digitCount, List.takeWhile_cons_of_neg h']
    rfl
  simp [dateAt, ha, hd]

lemma hasDateL_all_ws (w : List Char) (hw : ∀ c ∈ w, pyIsSpace c = true) :
    hasDateL w = false := by
  induction w with
  | nil => rfl
  | cons c t ih =>
    rw [hasDateL, List.tails_cons, List.any_cons]
    rw [dateAt_cons_not_digit c t (ws_not_digit c (hw c (by simp)))]
    exact ih (fun x hx => hw x (by simp [hx]))

lemma hasDateL_ws_append (w v : List Char) (hw : ∀ c ∈ w, pyIsSpace c = true) :
    hasDateL (w ++ v) = hasDateL v := by
  induction w with
  | nil => rw [List.nil_append]
  | cons c t ih =>
    rw [List.cons_append, hasDateL, List.tails_cons, List.any_cons]
    rw [dateAt_cons_not_digit _ _ (ws_not_digit c (hw c (by simp)))]
    exact ih (fun x hx => hw x (by simp [hx]))

lemma hasDateL_append_ws (v w : List Char) (hw : ∀ c ∈ w, pyIsSpace c = true) :
    hasDateL (v ++ w) = hasDateL v := by
  induction v with
  | nil =>
    rw [List.nil_append, hasDateL_all_ws w hw]
    rfl
  | cons x v ih =>
    rw [List.cons_append, hasDateL, List.tails_cons, List.any_cons]
    rw [show x :: (v ++ w) = (x :: v) ++ w from rfl, dateAt_append _ w hw]
    rw [hasDateL, List.tails_cons, List.any_cons]
    exact congrArg (dateAt (x :: v) || ·) ih

lemma stripL_decomp (l : List Char) :
    ∃ w1 w2, (∀ c ∈ w1, pyIsSpace c = true) ∧ (∀ c ∈ w2, pyIsSpace c = true) ∧
      l = w1 ++ (stripL l ++ w2) := by
  obtain ⟨w2, hw2, hw2l⟩ := trimRightL_decomp (trimLeftL l)
  refine ⟨l.takeWhile pyIsSpace, w2, fun c hc => List.mem_takeWhile_imp hc, hw2, ?_⟩
  rw [stripL, hw2l]
  exact (List.takeWhile_append_dropWhile pyIsSpace l).symm

lemma hasDate_strip (s : String) : hasDate (strip s) = hasDate s := by
  obtain ⟨w1, w2, hw1, hw2, hdecomp⟩ := stripL_decomp s.data
  show hasDateL (stripL s.data) = hasDateL s.data
  conv_rhs => rw [hdecomp]
  rw [hasDateL_ws_append w1 _ hw1, hasDateL_append_ws _ w2 hw2]

lemma hasAmount_strip (s : String) : hasAmount (strip s) = hasAmount s := by
  obtain ⟨w1, w2, hw1, hw2, hdecomp⟩ := stripL_decomp s.data
  show (stripL s.data).any isDigitOrComma = s.data.any isDigitOrComma
  conv_rhs => rw [hdecomp]
  simp only [List.any_append, Bool.or_eq_true]
  have h1 : w1.any isDigitOrComma = false := by
    rw [List.any_eq_false]
    intro c hc
    simp [ws_not_digitOrComma c (hw1 c hc)]
  have h2 : w2.any isDigitOrComma = false := by
    rw [List.any_eq_false]
    intro c hc
    simp [ws_not_digitOrComma c (hw2 c hc)]
  rw [h1, h2]
  simp

lemma dateAt_head_digit (l : List Char) (h : dateAt l = true) :
    ∃ c t, l = c :: t ∧ c.isDigit = true := by
  cases l with
  | nil => exact absurd h (by decide)
  | cons c t =>
    by_cases hc : c.isDigit = true
    · exact ⟨c, t, rfl, hc⟩
    · rw [dateAt_cons_not_digit c t (by simp [hc])] at h
      exact absurd h (by simp)

lemma hasDate_imp_hasAmount (s : String) (h : hasDate s = true) :
    hasAmount s = true := by
  rw [hasDate, hasDateL, List.any_eq_true] at h
  obtain ⟨t, ht, hdt⟩ := h
  obtain ⟨c, t', rfl, hc⟩ := dateAt_head_digit t hdt
  rw [hasAmount, List.any_eq_true]
  refine ⟨c, ?_, by simp [isDigitOrComma, hc]⟩
  exact (List.mem_tails _ _ |>.mp ht).subset (by simp)

/-- A raw line that matches both the date and the amount pattern is, after
the detector's stripping, non-blank and classified as table data. -/
lemma tableLine_of_dateAmount (l : String) (hd : hasDate l = true)
    (ha : hasAmount l = true) :
    strip l ≠ "" ∧ is_table_line (strip l) = true := by
  have hd' : hasDate (strip l) = true := by rw [hasDate_strip]; exact hd
  have ha' : hasAmount (strip l) = true := by rw [hasAmount_strip]; exact ha
  refine ⟨?_, ?_⟩
  · intro hcon
    rw [hcon] at hd'
    exact absurd hd' (by decide)
  · unfold is_table_line
    simp [hd', ha']

/-! ## Detector state machine (claims C2 and C3) -/

lemma drop_cons_getD (full : List String) (i : ℕ) (l : String)
    (rest : List String) (h : full.drop i = l :: rest) :
    full.getD i "" = l ∧ rest = full.drop (i + 1) ∧ i < full.length := by
  have hlen : i < full.length := by
    by_contra hcon
    rw [List.drop_eq_nil_iff_le.mpr (by omega)] at h
    exact absurd h (by simp)
  refine ⟨?_, ?_, hlen⟩
  · rw [List.getD_eq_getElem?_getD]
    have h0 : full[i]? = (full.drop i)[0]? := by
      rw [List.getElem?_drop, Nat.add_zero]
    rw [h0, h]
    simp
  · have h1 : full.drop (i + 1) = (full.drop i).drop 1 := by
      rw [List.drop_drop]
    rw [h1, h]
    rfl

lemma slice_extend (full : List String) (s i : ℕ) (l : String)
    (rest : List String) (hd : full.drop i = l :: rest) (hsi : s ≤ i) :
    (full.drop s).take (i + 1 - s) = (full.drop s).take (i - s) ++ [l] := by
  have h1 : i + 1 - s = (i - s) + 1 := by omega
  rw [h1, List.take_succ]
  congr 1
  have h2 : (full.drop s)[i - s]? = full[s + (i - s)]? := List.getElem?_drop _ _ _
  have h3 : s + (i - s) = i := by omega
  have h4 : full[i]? = (full.drop i)[0]? := by
    rw [List.getElem?_drop, Nat.add_zero]
  rw [h2, h3, h4, hd]
  simp

/-- Full characterization of the regions emitted by the detector loop: every
region's lines are exactly the stripped source lines of its span, and the
region was closed by a blank line, by a non-table line, or by the end of the
text. -/
lemma detectAux_spec (full : List String) :
    ∀ (rest : List String) (i : ℕ) (st : Option ℕ) (acc : List String),
      rest = full.drop i → i ≤ full.length →
      (∀ s, st = some s → s + acc.length = i ∧ 1 ≤ acc.length ∧
        acc = ((full.drop s).take (i - s)).map strip) →
      (st = none → acc = []) →
      ∀ r ∈ detectAux rest i st acc,
        r.start_line ≤ r.end_line ∧ r.end_line < full.length ∧
        r.lines =
          ((full.drop r.start_line).take (r.end_line + 1 - r.start_line)).map
            strip ∧
        (r.end_line + 1 = full.length ∨
          strip (full.getD (r.end_line + 1) "") = "" ∨
          is_table_line (strip (full.getD (r.end_line + 1) "")) = false) := by
  intro rest
  induction rest with
  | nil =>
    intro i st acc hrest hi hsome hnone r hr
    cases st with
    | none => simp [detectAux] at hr
    | some s =>
      simp only [detectAux] at hr
      by_cases h3 : 3 ≤ acc.length
      · rw [if_pos h3, List.mem_singleton] at hr
        subst hr
        obtain ⟨hsum, hlen1, hacc⟩ := hsome s rfl
        have hieq : full.length ≤ i := List.drop_eq_nil_iff_le.mp hrest.symm
        refine ⟨by simp [mkRegion]; omega, by simp [mkRegion]; omega, ?_, ?_⟩
        · show acc = ((full.drop s).take ((i - 1) + 1 - s)).map strip
          rw [show (i - 1) + 1 - s = i - s by omega]
          exact hacc
        · left
          show (i - 1) + 1 = full.length
          omega
      · rw [if_neg h3] at hr
        simp at hr
  | cons l rest ih =>
    intro i st acc hrest hi hsome hnone r hr
    obtain ⟨hgetD, hrest', hilt⟩ := drop_cons_getD full i l rest hrest.symm
    cases st with
    | none =>
      have hacc0 : acc = [] := hnone rfl
      subst hacc0
      simp only [detectAux] at hr
      by_cases hb : strip l = ""
      · rw [if_pos hb, List.nil_append] at hr
        exact ih (i + 1) none [] hrest' (by omega) (fun s hs => nomatch hs)
          (fun _ => rfl) r hr
      · rw [if_neg hb] at hr
        by_cases ht : is_table_line (strip l) = true
        · rw [if_pos ht] at hr
          refine ih (i + 1) (some i) [strip l] hrest' (by omega) ?_
            (fun hs => nomatch hs) r hr
          intro s' hs'
          injection hs' with h12
          subst h12
          refine ⟨by simp, by simp, ?_⟩
          rw [show i + 1 - i = 1 by omega, hrest.symm]
          rfl
        · rw [if_neg ht] at hr
          by_cases hh : is_header_line (strip l) = true
          · rw [if_pos hh] at hr
            refine ih (i + 1) (some i) [strip l] hrest' (by omega) ?_
              (fun hs => nomatch hs) r hr
            intro s' hs'
            injection hs' with h12
            subst h12
            refine ⟨by simp, by simp, ?_⟩
            rw [show i + 1 - i = 1 by omega, hrest.symm]
            rfl
          · rw [if_neg hh] at hr
            exact ih (i + 1) none [] hrest' (by omega) (fun s hs => nomatch hs)
              (fun _ => rfl) r hr
    | some s =>
      obtain ⟨hsum, hlen1, hacc⟩ := hsome s rfl
      simp only [detectAux] at hr
      by_cases hb : strip l = ""
      · rw [if_pos hb, List.mem_append] at hr
        rcases hr with hr | hr
        · by_cases h3 : 3 ≤ acc.length
          · rw [if_pos h3, List.mem_singleton] at hr
            subst hr
            refine ⟨by simp [mkRegion]; omega, by simp [mkRegion]; omega, ?_, ?_⟩
            · show acc = ((full.drop s).take ((i - 1) + 1 - s)).map strip
              rw [show (i - 1) + 1 - s = i - s by omega]
              exact hacc
            · right; left
              show strip (full.getD ((i - 1) + 1) "") = ""
              rw [show (i - 1) + 1 = i by omega, hgetD]
              exact hb
          · rw [if_neg h3] at hr
            simp at hr
        · exact ih (i + 1) none [] hrest' (by omega) (fun s' hs => nomatch hs)
            (fun _ => rfl) r hr
      · rw [if_neg hb] at hr
        by_cases ht : is_table_line (strip l) = true
        · rw [if_pos ht] at hr
          refine ih (i + 1) (some s) (acc ++ [strip l]) hrest' (by omega) ?_
            (fun hs => nomatch hs) r hr
          intro s' hs'
          injection hs' with h12
          subst h12
          refine ⟨by simp only [List.length_append, List.length_singleton]; omega,
            by simp, ?_⟩
          rw [slice_extend full s i l rest hrest.symm (by omega), List.map_append,
            ← hacc]
          rfl
        · rw [if_neg ht, List.mem_append] at hr
          rcases hr with hr | hr
          · by_cases h3 : 3 ≤ acc.length
            · rw [if_pos h3, List.mem_singleton] at hr
              subst hr
              refine ⟨by simp [mkRegion]; omega, by simp [mkRegion]; omega, ?_, ?_⟩
              · show acc = ((full.drop s).take ((i - 1) + 1 - s)).map strip
                rw [show (i - 1) + 1 - s = i - s by omega]
                exact hacc
              · right; right
                show is_table_line (strip (full.getD ((i - 1) + 1) "")) = false
                rw [show (i - 1) + 1 = i by omega, hgetD]
                simpa using ht
            · rw [if_neg h3] at hr
              simp at hr
          · exact ih (i + 1) none [] hrest' (by omega) (fun s' hs => nomatch hs)
              (fun _ => rfl) r hr

/-- Claim C3 as stated is false: in the C3 text the non-blank prose line
"hello world" closes the open region (the region ends at line 2 although the
text continues), so a region is not closed only by a blank line or the end
of the text. -/
theorem c3_counterexample :
    ¬ (∀ r ∈ detect_table_boundaries c3Text,
        r.end_line + 1 = (linesOf c3Text).length ∨
        strip ((linesOf c3Text).getD (r.end_line + 1) "") = "") := by
  decide

/-- Claim C3 (corrected): once a region is open, every line up to the close
is appended — the region's lines are exactly the stripped source lines of
its span — and the region is closed by a blank line, by a non-blank line
that does not look like table data, or by the end of the text. -/
theorem c3_region_lines_and_closure (text : String) :
    ∀ r ∈ detect_table_boundaries text,
      r.start_line ≤ r.end_line ∧ r.end_line < (linesOf text).length ∧
      r.lines = (((linesOf text).drop r.start_line).take
        (r.end_line + 1 - r.start_line)).map strip ∧
      (r.end_line + 1 = (linesOf text).length ∨
        strip ((linesOf text).getD (r.end_line + 1) "") = "" ∨
        is_table_line (strip ((linesOf text).getD (r.end_line + 1) "")) =
          false) :=
  detectAux_spec (linesOf text) (linesOf text) 0 none []
    (List.drop_zero _).symm (Nat.zero_le _) (fun _ hs => nomatch hs)
    (fun _ => rfl)

/-- Claim C3 witness: the corrected span-and-closure property at the
scenario-A region. -/
theorem c3_witness :
    regionA.start_line ≤ regionA.end_line ∧
    regionA.end_line < (linesOf scenarioA).length ∧
    regionA.lines = (((linesOf scenarioA).drop regionA.start_line).take
      (regionA.end_line + 1 - regionA.start_line)).map strip ∧
    (regionA.end_line + 1 = (linesOf scenarioA).length ∨
      strip ((linesOf scenarioA).getD (regionA.end_line + 1) "") = "" ∨
      is_table_line (strip ((linesOf scenarioA).getD (regionA.end_line + 1) "")) =
        false) :=
  c3_region_lines_and_closure scenarioA regionA (by decide)

/-- An open region with at least 3 accumulated lines always survives to a
returned region with the same start and an end no earlier than the line
before the current position. -/
lemma detectAux_open_region :
    ∀ (rest : List String) (i s : ℕ) (acc : List String), 3 ≤ acc.length →
      ∃ r ∈ detectAux rest i (some s) acc,
        r.start_line = s ∧ i - 1 ≤ r.end_line := by
  intro rest
  induction rest with
  | nil =>
    intro i s acc h3
    refine ⟨mkRegion s (i - 1) acc, ?_, rfl, le_refl _⟩
    simp only [detectAux, if_pos h3]
    simp
  | cons l rest ih =>
    intro i s acc h3
    simp only [detectAux]
    by_cases hb : strip l = ""
    · rw [if_pos hb, if_pos h3]
      exact ⟨mkRegion s (i - 1) acc, List.mem_append_left _ (by simp), rfl,
        le_refl _⟩
    · rw [if_neg hb]
      by_cases ht : is_table_line (strip l) = true
      · rw [if_pos ht]
        obtain ⟨r, hr, hrs, hre⟩ := ih (i + 1) s (acc ++ [strip l])
          (by simp only [List.length_append, List.length_singleton]; omega)
        exact ⟨r, hr, hrs, by omega⟩
      · rw [if_neg ht, if_pos h3]
        exact ⟨mkRegion s (i - 1) acc, List.mem_append_left _ (by simp), rfl,
          le_refl _⟩

/-- Stepping through two further table lines from an open region. -/
lemma detectAux_two_more (full : List String) (i s : ℕ) (acc : List String)
    (hlen : 1 ≤ acc.length) (hj2 : i + 2 < full.length)
    (h1b : strip (full.getD (i + 1) "") ≠ "")
    (h1t : is_table_line (strip (full.getD (i + 1) "")) = true)
    (h2b : strip (full.getD (i + 2) "") ≠ "")
    (h2t : is_table_line (strip (full.getD (i + 2) "")) = true) :
    ∃ r ∈ detectAux (full.drop (i + 1)) (i + 1) (some s) acc,
      r.start_line = s ∧ i + 2 ≤ r.end_line := by
  obtain ⟨l1, rest1, hd1⟩ : ∃ l1 rest1, full.drop (i + 1) = l1 :: rest1 := by
    cases h : full.drop (i + 1) with
    | nil =>
      have := List.drop_eq_nil_iff_le.mp h
      omega
    | cons l1 rest1 => exact ⟨l1, rest1, rfl⟩
  obtain ⟨hg1, hr1, -⟩ := drop_cons_getD full (i + 1) l1 rest1 hd1
  rw [hg1] at h1b h1t
  obtain ⟨l2, rest2, hd2⟩ : ∃ l2 rest2, full.drop (i + 2) = l2 :: rest2 := by
    cases h : full.drop (i + 2) with
    | nil =>
      have := List.drop_eq_nil_iff_le.mp h
      omega
    | cons l2 rest2 => exact ⟨l2, rest2, rfl⟩
  obtain ⟨hg2, hr2, -⟩ := drop_cons_getD full (i + 2) l2 rest2 hd2
  rw [hg2] at h2b h2t
  rw [hd1]
  simp only [detectAux]
  rw [if_neg h1b, if_pos h1t]
  rw [show rest1 = l2 :: rest2 from by rw [hr1, ← hd2]]
  simp only [detectAux]
  rw [if_neg h2b, if_pos h2t]
  obtain ⟨r, hr, hrs, hre⟩ := detectAux_open_region rest2 (i + 3) s
    ((acc ++ [strip l1]) ++ [strip l2])
    (by simp only [List.length_append, List.length_singleton]; omega)
  exact ⟨r, hr, hrs, by omega⟩

/-- Processing from any position at or before three consecutive table-worthy
lines produces a region spanning them. -/
lemma detectAux_reach (full : List String) (j : ℕ) (hj2 : j + 2 < full.length)
    (h0b : strip (full.getD j "") ≠ "")
    (h0t : is_table_line (strip (full.getD j "")) = true)
    (h1b : strip (full.getD (j + 1) "") ≠ "")
    (h1t : is_table_line (strip (full.getD (j + 1) "")) = true)
    (h2b : strip (full.getD (j + 2) "") ≠ "")
    (h2t : is_table_line (strip (full.getD (j + 2) "")) = true) :
    ∀ (rest : List String) (i : ℕ) (st : Option ℕ) (acc : List String),
      rest = full.drop i → i ≤ j → (∀ s, st = some s → s ≤ i) →
      ∃ r ∈ detectAux rest i st acc,
        r.start_line ≤ j ∧ j + 2 ≤ r.end_line := by
  intro rest
  induction rest with
  | nil =>
    intro i st acc hrest hij hst
    exfalso
    have := List.drop_eq_nil_iff_le.mp hrest.symm
    omega
  | cons l rest ih =>
    intro i st acc hrest hij hst
    obtain ⟨hgetD, hrest', hilt⟩ := drop_cons_getD full i l rest hrest.symm
    by_cases hieq : i = j
    · subst hieq
      rw [hgetD] at h0b h0t
      simp only [detectAux]
      rw [if_neg h0b, if_pos h0t]
      cases st with
      | none =>
        obtain ⟨r, hr, hrs, hre⟩ := detectAux_two_more full i i [strip l]
          (by simp) hj2 h1b h1t h2b h2t
        rw [← hrest'] at hr
        exact ⟨r, hr, by omega, hre⟩
      | some s =>
        have hs : s ≤ i := hst s rfl
        obtain ⟨r, hr, hrs, hre⟩ := detectAux_two_more full i s
          (acc ++ [strip l])
          (by simp only [List.length_append, List.length_singleton]; omega)
          hj2 h1b h1t h2b h2t
        rw [← hrest'] at hr
        exact ⟨r, hr, by omega, hre⟩
    · have hij' : i + 1 ≤ j := by omega
      simp only [detectAux]
      by_cases hb : strip l = ""
      · rw [if_pos hb]
        obtain ⟨r, hr, hp⟩ := ih (i + 1) none [] hrest' hij'
          (fun s hs => nomatch hs)
        exact ⟨r, List.mem_append_right _ hr, hp⟩
      · rw [if_neg hb]
        by_cases ht : is_table_line (strip l) = true
        · rw [if_pos ht]
          cases st with
          | none =>
            exact ih (i + 1) (some i) [strip l] hrest' hij'
              (fun s hs => by injection hs with h12; omega)
          | some s =>
            exact ih (i + 1) (some s) (acc ++ [strip l]) hrest' hij'
              (fun s' hs => by
                injection hs with h12
                have := hst s rfl
                omega)
        · rw [if_neg ht]
          cases st with
          | none =>
            by_cases hh : is_header_line (strip l) = true
            · rw [if_pos hh]
              exact ih (i + 1) (some i) [strip l] hrest' hij'
                (fun s hs => by injection hs with h12; omega)
            · rw [if_neg hh]
              exact ih (i + 1) none [] hrest' hij' (fun s hs => nomatch hs)
          | some s =>
            obtain ⟨r, hr, hp⟩ := ih (i + 1) none [] hrest' hij'
              (fun s' hs => nomatch hs)
            exact ⟨r, List.mem_append_right _ hr, hp⟩

/-- Claim C2 as stated is false: in the C2 text, lines 10-12 are three
consecutive date-and-amount lines, but the only region containing them (the
whole 13-line block, diluted by ten tab-separated digit-free lines) has
confidence 22/65 < 0.5. -/
theorem c2_counterexample :
    threeTableLinesAt (linesOf c2Text) 10 = true ∧
    ¬ ∃ r ∈ detect_table_boundaries c2Text,
        r.start_line ≤ 10 ∧ 12 ≤ r.end_line ∧ (1 / 2 : ℚ) ≤ r.confidence := by
  exact ⟨by decide, by decide⟩

/-- Claim C2 (corrected): whenever the line sequence of the input contains 3
consecutive lines that each contain a date pattern and a numeric amount
pattern, the detector returns at least one region whose line span includes
those 3 lines (the confidence bound of the original claim does not hold in
general). -/
theorem c2_three_lines_spanned (text : String) (j : ℕ)
    (h : threeTableLinesAt (linesOf text) j = true) :
    ∃ r ∈ detect_table_boundaries text,
      r.start_line ≤ j ∧ j + 2 ≤ r.end_line := by
  unfold threeTableLinesAt at h
  simp only [Bool.and_eq_true, decide_eq_true_eq] at h
  obtain ⟨⟨⟨hj2, hd0, ha0⟩, hd1, ha1⟩, hd2, ha2⟩ := h
  obtain ⟨h0b, h0t⟩ := tableLine_of_dateAmount _ hd0 ha0
  obtain ⟨h1b, h1t⟩ := tableLine_of_dateAmount _ hd1 ha1
  obtain ⟨h2b, h2t⟩ := tableLine_of_dateAmount _ hd2 ha2
  exact detectAux_reach (linesOf text) j hj2 h0b h0t h1b h1t h2b h2t
    (linesOf text) 0 none [] (List.drop_zero _).symm (Nat.zero_le _)
    (fun s hs => nomatch hs)

/-- Claim C2 witness: three date lines alone produce a region spanning
them. -/
theorem c2_witness :
    ∃ r ∈ detect_table_boundaries "1/1/20 a 1,0\n1/1/20 b 2,0\n1/1/20 c 3,0",
      r.start_line ≤ 0 ∧ 0 + 2 ≤ r.end_line :=
  c2_three_lines_spanned "1/1/20 a 1,0\n1/1/20 b 2,0\n1/1/20 c 3,0" 0
    (by decide)

end FinanceV2
